import Mathlib

/-!
A verification development for the TicToc-style transactional layer of
SplinterDB (`src/transaction_impl/transaction_fantasticc_nolock.h`) and the
batched reader-writer lock backoff (`src/platform_linux/platform.c`).

The C code is shallowly embedded: machine integers become `Nat` with explicit
`% 2^w` where a C bitfield or unsigned type truncates; keys (opaque byte
slices ordered by `data_key_compare`) are abstracted to `Nat` with the usual
order; the per-key timestamp cache slot of an `rw_entry` (reached through
`entry->tuple_ts`) is carried as a field of the modelled entry, which gives
the sequential (interference-free) semantics of the CAS loops, except where a
CAS/lock schedule matters, in which case an explicit oracle parameter decides
the outcome of each attempt.

`txn_timestamp` is declared in `include/splinterdb/transaction.h`, which is
not part of the sources here.  Modelled from the spec: the spec's data model
says a tuple timestamp is `{wts: 63b, delta: 64b, lock_bit: 1b}` packed into
128 bits and updated by CAS, so `txn_timestamp` is a 128-bit unsigned
integer; its arithmetic is `Nat` arithmetic modulo `2^128`.
-/

/-- Width constants of the embedded machine integers. -/
def W63 : Nat := 2 ^ 63

def W64 : Nat := 2 ^ 64

def W128 : Nat := 2 ^ 128

/-- 128-bit unsigned subtraction `a - b` (two's complement wraparound),
as performed on `txn_timestamp` values. -/
def sub128 (a b : Nat) : Nat := (a + (W128 - b % W128)) % W128

/-- `timestamp_set`: one slot of the in-memory timestamp cache,
`{ lock_bit : 1; delta : 64; wts : 63 }` bitfields of `txn_timestamp`. -/
structure timestamp_set where
  lock_bit : Nat
  delta : Nat
  wts : Nat
  deriving Repr, DecidableEq

/-- Well-formedness of a `timestamp_set`: each field fits its bitfield. -/
def timestamp_set.wf (t : timestamp_set) : Prop :=
  t.lock_bit ≤ 1 ∧ t.delta < W64 ∧ t.wts < W63

instance (t : timestamp_set) : Decidable t.wf := by
  unfold timestamp_set.wf; infer_instance

/-- `timestamp_set_get_rts`: `ts->wts + ts->delta`, a 128-bit addition. -/
def timestamp_set_get_rts (ts : timestamp_set) : Nat :=
  (ts.wts + ts.delta) % W128

/-- Under the bitfield bounds the 128-bit addition in
`timestamp_set_get_rts` does not wrap. -/
theorem timestamp_set_get_rts_eq (ts : timestamp_set) (h : ts.wf) :
    timestamp_set_get_rts ts = ts.wts + ts.delta := by
  have h1 : ts.wts + ts.delta < W128 := by
    have := h.2.1; have := h.2.2
    have : ts.wts + ts.delta < W63 + W64 := by omega
    have hlt : W63 + W64 < W128 := by norm_num [W63, W64, W128]
    omega
  exact Nat.mod_eq_of_lt h1

/-- The message classes relevant to buffered transactional writes. -/
inductive message_type where
  | insert
  | update
  | delete
  deriving Repr, DecidableEq

/-- `tuple_header`: the on-disk header prepended to every stored value,
`{ is_ts_update : 1; delta : 64; wts : 63 }` bitfields packed into 128 bits
(16 bytes), declared lowest-bit first. -/
structure tuple_header where
  is_ts_update : Nat
  delta : Nat
  wts : Nat
  deriving Repr, DecidableEq

/-- Little-endian byte expansion, `k` bytes of `n`. -/
def natToLEBytes : Nat → Nat → List Nat
  | 0, _ => []
  | k + 1, n => (n % 256) :: natToLEBytes k (n / 256)

/-- The 16 bytes of a `tuple_header` as laid out by the C bitfields
(`is_ts_update` in the lowest bit, then 64 bits of `delta`, then 63 bits of
`wts`). -/
def tuple_header.toBytes (h : tuple_header) : List Nat :=
  natToLEBytes 16 (h.is_ts_update % 2 + 2 * (h.delta % W64) + (2 * W64) * (h.wts % W63))

/-- A buffered transactional message: its class, the header occupying the
first `sizeof(tuple_header)` bytes of the buffer, and the application
payload after it.  `rw_entry_set_msg` zero-allocates the buffer, so the
header starts out all zero. -/
structure MessageBuf where
  cls : message_type
  header : tuple_header
  payload : List Nat
  deriving Repr, DecidableEq

/-- The full byte contents of a buffered message's slice
(`message_slice(e->msg)`): header bytes followed by the payload. -/
def MessageBuf.fullBytes (m : MessageBuf) : List Nat :=
  m.header.toBytes ++ m.payload

/-- `rw_entry_set_msg`: buffer the application message behind a zeroed
`tuple_header` (the buffer is `TYPED_ARRAY_ZALLOC`ed, the application bytes
are copied at offset `sizeof(tuple_header)`, and the slice has length
`sizeof(tuple_header) + message_length(msg)`). -/
def rw_entry_set_msg (cls : message_type) (appBytes : List Nat) : MessageBuf :=
  { cls := cls, header := ⟨0, 0, 0⟩, payload := appBytes }

/-- The modelled state of one `rw_entry` of a transaction at commit or
lookup time.  `key` abstracts the byte-slice key, `msg` is the buffered
write (`none` models `message_is_null`), `wts`/`rts` are the timestamps
recorded at read time, and `cache` is the current contents of the entry's
timestamp-cache slot (`*entry->tuple_ts`). -/
structure rw_entry where
  key : Nat
  is_read : Bool
  msg : Option MessageBuf
  wts : Nat
  rts : Nat
  cache : timestamp_set
  deriving Repr, DecidableEq

/-- `rw_entry_is_read`. -/
def rw_entry_is_read (e : rw_entry) : Bool := e.is_read

/-- `rw_entry_is_write`: the entry has a buffered message. -/
def rw_entry_is_write (e : rw_entry) : Bool := e.msg.isSome

/-- Well-formedness of an entry: recorded timestamps and the cache slot are
in the ranges the bitfields can produce (`wts` was copied from a 63-bit
field, `rts` is a `wts + delta` of such fields). -/
def rw_entry.wf (e : rw_entry) : Prop :=
  e.wts < W63 ∧ e.rts < W63 + W64 ∧ e.cache.wf

instance (e : rw_entry) : Decidable e.wf := by
  unfold rw_entry.wf; infer_instance

/-- The read set: entries with `rw_entry_is_read`, in `rw_entries` order. -/
def read_set (entries : List rw_entry) : List rw_entry :=
  entries.filter rw_entry_is_read

/-- The write set before sorting: entries with `rw_entry_is_write`, in
`rw_entries` order. -/
def write_set (entries : List rw_entry) : List rw_entry :=
  entries.filter rw_entry_is_write

/-- `platform_sort_slow` on the write set with `rw_entry_key_compare`
(which compares keys with `data_key_compare`); modelled as an insertion
sort by key. -/
def sorted_write_set (entries : List rw_entry) : List rw_entry :=
  (write_set entries).insertionSort (fun a b => a.key ≤ b.key)

/-- The first phase of `transactional_splinterdb_commit`: fold over
`txn->rw_entries`, taking for each read entry `MAX(commit_ts, wts)` with
`wts = entry->wts` incremented by `eps` (`eps = 1` under
`EXPERIMENTAL_MODE_SILO`, else `0`); additions are on 128-bit
`txn_timestamp`s. -/
def commit_ts_reads (eps : Nat) (entries : List rw_entry) : Nat :=
  entries.foldl
    (fun acc e => if rw_entry_is_read e then max acc ((e.wts + eps) % W128) else acc) 0

/-- The second phase of `transactional_splinterdb_commit`: over the sorted
write set take `MAX(commit_ts, w->rts + 1)` where `w->rts` is re-read as
`timestamp_set_get_rts(w->tuple_ts)` from the entry's current cache slot
(the `is_new_entries` array is zero-initialised and never written, so its
branch is dead and the cache slot is always used). -/
def commitTs (eps : Nat) (entries : List rw_entry) : Nat :=
  (sorted_write_set entries).foldl
    (fun acc w => max acc ((timestamp_set_get_rts w.cache + 1) % W128))
    (commit_ts_reads eps entries)

/-- The list of candidate commit-timestamp values named by the spec formula:
`read.wts + eps` over the read set and current `rts + 1` over the write
set. -/
def commitTsCandidates (eps : Nat) (entries : List rw_entry) : List Nat :=
  (read_set entries).map (fun e => e.wts + eps)
    ++ (write_set entries).map (fun w => timestamp_set_get_rts w.cache + 1)

/-- Maximum of a list of naturals (0 when empty). -/
def maxList (l : List Nat) : Nat := l.foldr max 0

theorem le_maxList {x : Nat} {l : List Nat} (h : x ∈ l) : x ≤ maxList l := by
  induction l with
  | nil => cases h
  | cons y t ih =>
    rcases List.mem_cons.mp h with h | h
    · subst h; exact Nat.le_max_left _ _
    · exact Nat.le_trans (ih h) (Nat.le_max_right _ _)

theorem maxList_mem {l : List Nat} (h : l ≠ []) : maxList l ∈ l := by
  induction l with
  | nil => exact absurd rfl h
  | cons y t ih =>
    by_cases ht : t = []
    · subst ht; simp [maxList]
    · rcases Nat.le_total (maxList t) y with hle | hle
      · have : maxList (y :: t) = y := by
          simp only [maxList, List.foldr_cons]
          exact Nat.max_eq_left hle
        rw [this]; exact List.mem_cons_self y t
      · have : maxList (y :: t) = maxList t := by
          simp only [maxList, List.foldr_cons]
          exact Nat.max_eq_right hle
        rw [this]; exact List.mem_cons_of_mem y (ih ht)

theorem maxList_perm {l l' : List Nat} (h : l.Perm l') : maxList l = maxList l' := by
  by_cases hl : l = []
  · subst hl; rw [← List.Perm.nil_eq h]
  · have hl' : l' ≠ [] := by
      intro hc; subst hc; exact hl (List.Perm.eq_nil h)
    apply Nat.le_antisymm
    · exact le_maxList (h.mem_iff.mp (maxList_mem hl))
    · exact le_maxList (h.mem_iff.mpr (maxList_mem hl'))

theorem foldl_max_eq_max (l : List Nat) (a : Nat) : l.foldl max a = max a (maxList l) := by
  induction l generalizing a with
  | nil => simp [maxList]
  | cons x t ih =>
    show List.foldl max (max a x) t = max a (maxList (x :: t))
    rw [ih, Nat.max_assoc]
    rfl

theorem maxList_append (A B : List Nat) :
    maxList (A ++ B) = max (maxList A) (maxList B) := by
  induction A with
  | nil => simp [maxList]
  | cons x t ih =>
    simp only [List.cons_append, maxList, List.foldr_cons] at *
    rw [ih, Nat.max_assoc]

theorem foldl_if_max {α : Type} (p : α → Bool) (f : α → Nat) :
    ∀ (l : List α) (a : Nat),
      l.foldl (fun acc e => if p e then max acc (f e) else acc) a
        = ((l.filter p).map f).foldl max a := by
  intro l
  induction l with
  | nil => intro a; rfl
  | cons x t ih =>
    intro a
    by_cases hp : p x
    · simp only [List.foldl_cons, hp, if_true, List.filter_cons, List.map_cons]
      rw [ih]
    · simp only [List.foldl_cons, hp, if_false, List.filter_cons]
      simp only [hp, Bool.false_eq_true, if_false]
      rw [ih]

theorem mem_read_set {e : rw_entry} {entries : List rw_entry}
    (h : e ∈ read_set entries) : e ∈ entries :=
  (List.mem_filter.mp h).1

theorem mem_write_set {e : rw_entry} {entries : List rw_entry}
    (h : e ∈ write_set entries) : e ∈ entries :=
  (List.mem_filter.mp h).1

theorem sorted_write_set_perm (entries : List rw_entry) :
    (sorted_write_set entries).Perm (write_set entries) :=
  List.perm_insertionSort _ _

/-- `commitTs` unfolded to plain (wraparound-free) arithmetic over the
candidate list, under the bitfield bounds. -/
theorem commitTs_eq_maxList (eps : Nat) (entries : List rw_entry)
    (heps : eps ≤ 1) (hwf : ∀ e ∈ entries, e.wf) :
    commitTs eps entries = maxList (commitTsCandidates eps entries) := by
  have hreads : commit_ts_reads eps entries
      = maxList ((read_set entries).map (fun e => e.wts + eps)) := by
    unfold commit_ts_reads
    rw [foldl_if_max]
    have hcong : (List.filter rw_entry_is_read entries).map
          (fun e => (e.wts + eps) % W128)
        = (List.filter rw_entry_is_read entries).map (fun e => e.wts + eps) := by
      apply List.map_congr_left
      intro e he
      have hew : e.wf := hwf e (List.mem_filter.mp he).1
      have : e.wts + eps < W128 := by
        have h1 : e.wts < W63 := hew.1
        have : W63 + 1 < W128 := by norm_num [W63, W128]
        omega
      exact Nat.mod_eq_of_lt this
    rw [show read_set entries = List.filter rw_entry_is_read entries from rfl]
    rw [hcong, foldl_max_eq_max]
    simp
  have hwrites : commitTs eps entries
      = max (commit_ts_reads eps entries)
          (maxList ((sorted_write_set entries).map
            (fun w => timestamp_set_get_rts w.cache + 1))) := by
    unfold commitTs
    have hcong : (sorted_write_set entries).map
          (fun w => (timestamp_set_get_rts w.cache + 1) % W128)
        = (sorted_write_set entries).map
          (fun w => timestamp_set_get_rts w.cache + 1) := by
      apply List.map_congr_left
      intro w hwmem
      have hw : w ∈ write_set entries :=
        (sorted_write_set_perm entries).mem_iff.mp hwmem
      have hww : w.wf := hwf w (mem_write_set hw)
      have hc := hww.2.2
      rw [timestamp_set_get_rts_eq _ hc]
      have h1 : w.cache.wts < W63 := hc.2.2
      have h2 : w.cache.delta < W64 := hc.2.1
      have : w.cache.wts + w.cache.delta + 1 < W128 := by
        have : W63 + W64 + 1 < W128 := by norm_num [W63, W64, W128]
        omega
      exact Nat.mod_eq_of_lt this
    have hfold : (sorted_write_set entries).foldl
        (fun acc w => max acc ((timestamp_set_get_rts w.cache + 1) % W128))
        (commit_ts_reads eps entries)
        = ((sorted_write_set entries).map
            (fun w => (timestamp_set_get_rts w.cache + 1) % W128)).foldl max
            (commit_ts_reads eps entries) :=
      (List.foldl_map (fun w : rw_entry => (timestamp_set_get_rts w.cache + 1) % W128)
        max (sorted_write_set entries) (commit_ts_reads eps entries)).symm
    rw [hfold, hcong, foldl_max_eq_max]
  rw [hwrites, hreads]
  have hperm : ((sorted_write_set entries).map
        (fun w => timestamp_set_get_rts w.cache + 1)).Perm
      ((write_set entries).map (fun w => timestamp_set_get_rts w.cache + 1)) :=
    (sorted_write_set_perm entries).map _
  rw [maxList_perm hperm]
  unfold commitTsCandidates
  rw [maxList_append]

/-- C1: in `transactional_splinterdb_commit`, for a transaction with at
least one read or write entry, `commit_ts` is the maximum, over the read
set, of each entry's observed `wts` plus `eps` (`eps = 1` under the
Silo-like `EXPERIMENTAL_MODE_SILO`, else `0`) and, over the write set, of
each entry's current cache `rts` plus one: it is one of those candidate
values and is an upper bound of all of them. -/
theorem C1_commit_ts_is_max (eps : Nat) (entries : List rw_entry)
    (heps : eps ≤ 1) (hwf : ∀ e ∈ entries, e.wf)
    (hne : commitTsCandidates eps entries ≠ []) :
    commitTs eps entries ∈ commitTsCandidates eps entries ∧
      ∀ x ∈ commitTsCandidates eps entries, x ≤ commitTs eps entries := by
  rw [commitTs_eq_maxList eps entries heps hwf]
  exact ⟨maxList_mem hne, fun x hx => le_maxList hx⟩

/-- A two-entry transaction (one read, one write) used to instantiate the
commit-timestamp theorem. -/
def c1ExampleEntries : List rw_entry :=
  [ { key := 0, is_read := true, msg := none, wts := 5, rts := 5,
      cache := ⟨0, 0, 5⟩ },
    { key := 1, is_read := false,
      msg := some (rw_entry_set_msg message_type.insert [7, 7]),
      wts := 0, rts := 0, cache := ⟨1, 2, 7⟩ } ]

theorem C1_witness :
    commitTs 0 c1ExampleEntries ∈ commitTsCandidates 0 c1ExampleEntries ∧
      ∀ x ∈ commitTsCandidates 0 c1ExampleEntries,
        x ≤ commitTs 0 c1ExampleEntries :=
  C1_commit_ts_is_max 0 c1ExampleEntries (by decide) (by decide) (by decide)

/-- The abort condition of the read-validation loop of
`transactional_splinterdb_commit` for one read entry: the entry is
revalidated only when its recorded `rts` is below `commit_ts`, and then
aborts when (a) the cache `wts` differs from the `wts` observed at read
time (`is_wts_different`), or (b) the current cache `rts` is at most
`commit_ts`, the slot's `lock_bit` is set and the entry is not in this
transaction's write set (`is_locked_by_another`). -/
def abortCond (ct : Nat) (r : rw_entry) : Prop :=
  r.rts < ct ∧
    (r.wts ≠ r.cache.wts ∨
      (timestamp_set_get_rts r.cache ≤ ct ∧ r.cache.lock_bit = 1 ∧
        rw_entry_is_write r = false))

instance (ct : Nat) (r : rw_entry) : Decidable (abortCond ct r) := by
  unfold abortCond; infer_instance

/-- `shift = delta - (delta & UINT64_MAX)` as computed in the read-set
extension step, where `delta = commit_ts - v1.wts` on 128-bit
`txn_timestamp`s; `& UINT64_MAX` keeps the low 64 bits. -/
def extension_shift (ct wts1 : Nat) : Nat :=
  let d := sub128 ct wts1
  d - d % W64

/-- One iteration of the read-validation of `transactional_splinterdb_commit`
for a single read entry, in the sequential semantics where the CAS succeeds
at the first attempt: returns the abort flag and the entry's cache slot
afterwards.  When no abort occurs and the current cache `rts` is at most
`commit_ts`, the slot is extended with `v2.wts += shift` (a 63-bit field)
and `v2.delta = delta - shift` (a 64-bit field). -/
def validateEntry (ct : Nat) (r : rw_entry) : Bool × timestamp_set :=
  if r.rts < ct then
    if r.wts ≠ r.cache.wts ∨ (timestamp_set_get_rts r.cache ≤ ct ∧
        r.cache.lock_bit = 1 ∧ rw_entry_is_write r = false) then
      (true, r.cache)
    else if timestamp_set_get_rts r.cache ≤ ct then
      (false, { lock_bit := r.cache.lock_bit,
                delta := (sub128 ct r.cache.wts - extension_shift ct r.cache.wts) % W64,
                wts := (r.cache.wts + extension_shift ct r.cache.wts) % W63 })
    else
      (false, r.cache)
  else
    (false, r.cache)

/-- The read-validation loop over `txn->rw_entries` (only read entries are
validated; the loop stops at the first abort, leaving the remaining slots
untouched).  Returns the abort flag and each entry's cache slot
afterwards. -/
def validateAll (ct : Nat) : List rw_entry → Bool × List (Nat × timestamp_set)
  | [] => (false, [])
  | r :: rest =>
    if rw_entry_is_read r then
      let v := validateEntry ct r
      if v.1 then (true, (r.key, v.2) :: rest.map (fun e => (e.key, e.cache)))
      else
        let w := validateAll ct rest
        (w.1, (r.key, v.2) :: w.2)
    else
      let w := validateAll ct rest
      (w.1, (r.key, r.cache) :: w.2)

theorem validateEntry_fst (ct : Nat) (r : rw_entry) :
    (validateEntry ct r).1 = true ↔ abortCond ct r := by
  unfold validateEntry abortCond
  by_cases h1 : r.rts < ct
  · simp only [h1, if_true, true_and]
    by_cases h2 : r.wts ≠ r.cache.wts ∨
        (timestamp_set_get_rts r.cache ≤ ct ∧ r.cache.lock_bit = 1 ∧
          rw_entry_is_write r = false)
    · simp [h2]
    · simp only [h2, if_false, iff_false]
      by_cases h3 : timestamp_set_get_rts r.cache ≤ ct <;> simp [h3, h2]
  · simp [h1]

theorem validateAll_fst (ct : Nat) (l : List rw_entry) :
    (validateAll ct l).1
      = l.any (fun e => rw_entry_is_read e && decide (abortCond ct e)) := by
  induction l with
  | nil => rfl
  | cons r rest ih =>
    unfold validateAll
    by_cases hr : rw_entry_is_read r
    · simp only [hr, if_true]
      by_cases hab : (validateEntry ct r).1
      · have : abortCond ct r := (validateEntry_fst ct r).mp hab
        simp [hab, hr, this]
      · have : ¬ abortCond ct r := fun hc =>
          hab ((validateEntry_fst ct r).mpr hc)
        simp [hab, hr, this, ih]
    · have hr' : rw_entry_is_read r = false := by
        revert hr; cases rw_entry_is_read r <;> simp
      simp [hr', ih]

/-- C2 (amended): read-validation behaviour per entry and for the whole
read set, in the sequential semantics.  An entry whose recorded `rts` is at
least `commit_ts` is not revalidated; a revalidated entry aborts exactly
under `abortCond` ((a) changed `wts`, or (b) locked by another transaction
with current `rts ≤ commit_ts`); a passing entry whose current cache `rts`
is at most `commit_ts` is CAS-extended to
`{wts = observed wts, delta = commit_ts - observed wts}` (given that the
extension does not overflow the 64-bit `delta` field); a passing entry
whose current cache `rts` already exceeds `commit_ts` is left unchanged
(no CAS is attempted, contrary to the claim as stated); and the loop
aborts exactly when some read entry satisfies `abortCond`. -/
theorem C2_read_validation (ct : Nat) (r : rw_entry) (l : List rw_entry)
    (hwf : r.cache.wf) (hct : ct < W128) :
    (ct ≤ r.rts → validateEntry ct r = (false, r.cache)) ∧
    ((validateEntry ct r).1 = true ↔ abortCond ct r) ∧
    (r.rts < ct → ¬ abortCond ct r → timestamp_set_get_rts r.cache ≤ ct →
      ct < r.cache.wts + W64 →
      validateEntry ct r = (false, ⟨r.cache.lock_bit, ct - r.wts, r.wts⟩)) ∧
    (r.rts < ct → ¬ abortCond ct r → ct < timestamp_set_get_rts r.cache →
      validateEntry ct r = (false, r.cache)) ∧
    ((validateAll ct l).1
      = l.any (fun e => rw_entry_is_read e && decide (abortCond ct e))) := by
  refine ⟨?_, validateEntry_fst ct r, ?_, ?_, validateAll_fst ct l⟩
  · intro h
    unfold validateEntry
    rw [if_neg (by omega : ¬ r.rts < ct)]
  · intro h1 hnab hrle hno
    have hwts : r.wts = r.cache.wts := by
      by_contra hne
      exact hnab ⟨h1, Or.inl hne⟩
    have hwle : r.cache.wts ≤ ct := by
      have := timestamp_set_get_rts_eq r.cache hwf
      omega
    have hcond : ¬ (r.wts ≠ r.cache.wts ∨
        (timestamp_set_get_rts r.cache ≤ ct ∧ r.cache.lock_bit = 1 ∧
          rw_entry_is_write r = false)) := by
      intro hc
      exact hnab ⟨h1, hc⟩
    have hsub : sub128 ct r.cache.wts = ct - r.cache.wts := by
      have hblt : r.cache.wts < W128 := by
        have h2 := hwf.2.2
        have : W63 < W128 := by norm_num [W63, W128]
        omega
      unfold sub128
      rw [Nat.mod_eq_of_lt hblt]
      have : ct + (W128 - r.cache.wts) = W128 + (ct - r.cache.wts) := by omega
      rw [this, Nat.add_mod_left]
      exact Nat.mod_eq_of_lt (by omega)
    have hdlt : ct - r.cache.wts < W64 := by omega
    have hshift : extension_shift ct r.cache.wts = 0 := by
      have he : extension_shift ct r.cache.wts
          = sub128 ct r.cache.wts - sub128 ct r.cache.wts % W64 := rfl
      rw [he, hsub, Nat.mod_eq_of_lt hdlt]
      omega
    unfold validateEntry
    rw [if_pos h1, if_neg hcond, if_pos hrle, hshift, hsub, Nat.sub_zero,
      Nat.add_zero, Nat.mod_eq_of_lt hdlt, Nat.mod_eq_of_lt hwf.2.2, ← hwts]
  · intro h1 hnab hgt
    have hcond : ¬ (r.wts ≠ r.cache.wts ∨
        (timestamp_set_get_rts r.cache ≤ ct ∧ r.cache.lock_bit = 1 ∧
          rw_entry_is_write r = false)) := by
      intro hc
      exact hnab ⟨h1, hc⟩
    unfold validateEntry
    rw [if_pos h1, if_neg hcond,
      if_neg (by omega : ¬ timestamp_set_get_rts r.cache ≤ ct)]

/-- A read entry whose recorded `rts` (2) is below the commit timestamp (5)
but whose cache slot was meanwhile extended past it
(`{lock_bit 0, delta 10, wts 1}`, so current `rts = 11 > 5`). -/
def c2AlreadyExtended : rw_entry :=
  { key := 0, is_read := true, msg := none, wts := 1, rts := 2,
    cache := ⟨0, 10, 1⟩ }

/-- C2, claim as stated, refuted: for this entry `rts_observed = 2 < 5 =
commit_ts`, yet the commit does not attempt any CAS: validation passes and
leaves the cache slot at `{0, 10, 1}`, which differs from the
`{wts = observed wts = 1, delta = commit_ts - wts = 4}` the claim says is
installed. -/
theorem C2_counterexample :
    c2AlreadyExtended.rts < 5 ∧
    validateEntry 5 c2AlreadyExtended = (false, ⟨0, 10, 1⟩) ∧
    (⟨0, 10, 1⟩ : timestamp_set) ≠ ⟨0, 4, 1⟩ := by
  refine ⟨by decide, ?_, by decide⟩
  decide

/-- Entries used to instantiate the validation theorem: a skipped entry,
an aborting entry, an extended entry and an already-extended entry. -/
def c2Skip : rw_entry :=
  { key := 0, is_read := true, msg := none, wts := 1, rts := 5, cache := ⟨0, 0, 1⟩ }

def c2Abort : rw_entry :=
  { key := 1, is_read := true, msg := none, wts := 1, rts := 0, cache := ⟨0, 0, 2⟩ }

def c2Ext : rw_entry :=
  { key := 2, is_read := true, msg := none, wts := 1, rts := 1, cache := ⟨0, 0, 1⟩ }

def c2Big : rw_entry :=
  { key := 3, is_read := true, msg := none, wts := 1, rts := 2, cache := ⟨0, 10, 1⟩ }

theorem C2_witness :
    validateEntry 3 c2Skip = (false, c2Skip.cache) ∧
    (validateEntry 3 c2Abort).1 = true ∧
    validateEntry 3 c2Ext = (false, ⟨0, 2, 1⟩) ∧
    validateEntry 3 c2Big = (false, c2Big.cache) ∧
    (validateAll 3 [c2Abort]).1 = true := by
  refine ⟨?_, ?_, ?_, ?_, ?_⟩
  · exact (C2_read_validation 3 c2Skip [] (by decide) (by decide)).1 (by decide)
  · exact (C2_read_validation 3 c2Abort [] (by decide) (by decide)).2.1.mpr (by decide)
  · have h := (C2_read_validation 3 c2Ext [] (by decide) (by decide)).2.2.1
      (by decide) (by decide) (by decide) (by decide)
    exact h.trans (by decide)
  · exact (C2_read_validation 3 c2Big [] (by decide) (by decide)).2.2.2.1
      (by decide) (by decide) (by decide)
  · exact ((C2_read_validation 3 c2Big [c2Abort] (by decide) (by decide)).2.2.2.2).trans
      (by decide)

/-- C9 (amended): `shift = delta - (delta & UINT64_MAX)` is zero exactly
when `delta = commit_ts - v1.wts` fits the 64-bit `delta` field; in that
range the extension leaves `v2.wts` at `v1.wts` and stores
`v2.delta = commit_ts - v1.wts` exactly.  (The claim's universal statement
fails: timestamp states within the bitfield bounds give
`commit_ts - v1.wts ≥ 2^64`, where `shift ≠ 0` and the
`platform_assert(shift == 0)` fires — the assertion is an overflow guard
for the 64-bit delta, not dead code.) -/
theorem C9_shift_zero_in_range (ct : Nat) (c : timestamp_set)
    (hwf : c.wf) (hle : c.wts ≤ ct) (hlt : ct < c.wts + W64) (hct : ct < W128) :
    extension_shift ct c.wts = 0 ∧
    (sub128 ct c.wts - extension_shift ct c.wts) % W64 = ct - c.wts ∧
    (c.wts + extension_shift ct c.wts) % W63 = c.wts := by
  have hblt : c.wts < W128 := by
    have h2 := hwf.2.2
    have : W63 < W128 := by norm_num [W63, W128]
    omega
  have hsub : sub128 ct c.wts = ct - c.wts := by
    unfold sub128
    rw [Nat.mod_eq_of_lt hblt]
    have : ct + (W128 - c.wts) = W128 + (ct - c.wts) := by omega
    rw [this, Nat.add_mod_left]
    exact Nat.mod_eq_of_lt (by omega)
  have hdlt : ct - c.wts < W64 := by omega
  have hshift : extension_shift ct c.wts = 0 := by
    have he : extension_shift ct c.wts
        = sub128 ct c.wts - sub128 ct c.wts % W64 := rfl
    rw [he, hsub, Nat.mod_eq_of_lt hdlt]
    omega
  refine ⟨hshift, ?_, ?_⟩
  · rw [hshift, hsub, Nat.sub_zero]
    exact Nat.mod_eq_of_lt hdlt
  · rw [hshift, Nat.add_zero]
    exact Nat.mod_eq_of_lt hwf.2.2

theorem C9_witness :
    extension_shift 10 (4 : Nat) = 0 ∧
    (sub128 10 4 - extension_shift 10 4) % W64 = 6 ∧
    ((4 : Nat) + extension_shift 10 4) % W63 = 4 :=
  C9_shift_zero_in_range 10 ⟨0, 0, 4⟩ (by decide) (by decide) (by decide)
    (by decide)

/-- A read entry whose cache slot is still at zero, in a transaction with a
write entry whose cache slot holds the largest representable timestamps
(`wts = 2^63 - 1`, `delta = 2^64 - 1`).  All fields are within the bitfield
bounds. -/
def c9Read : rw_entry :=
  { key := 0, is_read := true, msg := none, wts := 0, rts := 0,
    cache := ⟨0, 0, 0⟩ }

def c9Write : rw_entry :=
  { key := 1, is_read := false,
    msg := some (rw_entry_set_msg message_type.insert [1]),
    wts := 0, rts := 0, cache := ⟨0, W64 - 1, W63 - 1⟩ }

/-- C9, claim as stated, refuted: with these (bitfield-representable)
entries `commit_ts = 2^63 + 2^64 - 1`, the read entry reaches the extension
step (its recorded `rts` is below `commit_ts`, it does not abort, and its
current cache `rts` is at most `commit_ts`), `delta = commit_ts - v1.wts`
exceeds `2^64`, and `shift = delta - (delta & UINT64_MAX) = 2^64 ≠ 0`: the
`platform_assert(shift == 0)` fires. -/
theorem C9_counterexample :
    c9Read.wf ∧ c9Write.wf ∧
    c9Read.rts < commitTs 0 [c9Read, c9Write] ∧
    ¬ abortCond (commitTs 0 [c9Read, c9Write]) c9Read ∧
    timestamp_set_get_rts c9Read.cache ≤ commitTs 0 [c9Read, c9Write] ∧
    extension_shift (commitTs 0 [c9Read, c9Write]) c9Read.cache.wts = W64 ∧
    extension_shift (commitTs 0 [c9Read, c9Write]) c9Read.cache.wts ≠ 0 := by
  refine ⟨by decide, by decide, by decide, by decide, by decide, by decide, by decide⟩

/-- The storage operations issued by the commit's write phase. -/
inductive KVOp where
  | insert (k : Nat) (bytes : List Nat)
  | update (k : Nat) (bytes : List Nat)
  | delete (k : Nat)
  deriving Repr, DecidableEq

/-- The non-abort write phase for one write entry: the buffered message's
header is overwritten with `{is_ts_update = 0, delta = 0, wts = commit_ts}`
(`wts` is a 63-bit field) and then, switching on `message_class(w->msg)`,
`splinterdb_insert`/`splinterdb_update` is called with the key and
`message_slice(w->msg)` — the full buffer, header first — while
`splinterdb_delete` is called with the key only. -/
def commit_write_op (ct : Nat) (w : rw_entry) : Option KVOp :=
  match w.msg with
  | none => none
  | some m =>
    match m.cls with
    | message_type.insert =>
        some (KVOp.insert w.key
          (MessageBuf.fullBytes ⟨m.cls, ⟨0, 0, ct % W63⟩, m.payload⟩))
    | message_type.update =>
        some (KVOp.update w.key
          (MessageBuf.fullBytes ⟨m.cls, ⟨0, 0, ct % W63⟩, m.payload⟩))
    | message_type.delete => some (KVOp.delete w.key)

/-- `rw_entry_try_lock` on every write entry: the commit's lock phase sets
`lock_bit = 1` in the entry's cache slot (sequential semantics in which
the locks are eventually acquired; the retry schedule itself is modelled
separately below). -/
def lock_entry (e : rw_entry) : rw_entry :=
  if rw_entry_is_write e then
    { e with cache := { e.cache with lock_bit := 1 } }
  else e

def locked_entries (entries : List rw_entry) : List rw_entry :=
  entries.map lock_entry

/-- The abort path: `rw_entry_unlock` clears `lock_bit` of every write
entry's slot; other slots keep their post-validation value. -/
def abort_unlock : List rw_entry → List (Nat × timestamp_set) → List (Nat × timestamp_set)
  | e :: l, p :: vs =>
    (if rw_entry_is_write e then (p.1, ⟨0, p.2.delta, p.2.wts⟩) else p)
      :: abort_unlock l vs
  | _, _ => []

/-- The non-abort path: after the storage operation, every write entry's
slot is CAS-set to `{wts = commit_ts, delta = 0, lock_bit = 0}` (the loop
overwrites all three fields of the loaded value). -/
def success_cache (ct : Nat) : List rw_entry → List (Nat × timestamp_set) → List (Nat × timestamp_set)
  | e :: l, p :: vs =>
    (if rw_entry_is_write e then (p.1, ⟨0, 0, ct % W63⟩) else p)
      :: success_cache ct l vs
  | _, _ => []

/-- The outcome of `transactional_splinterdb_commit`: its return value, the
storage operations issued for write entries, and each entry's
timestamp-cache slot afterwards (key paired with slot value, in
`rw_entries` order). -/
structure CommitResult where
  rc : Int
  ops : List KVOp
  finalCache : List (Nat × timestamp_set)
  deriving Repr, DecidableEq

/-- `transactional_splinterdb_commit` in the sequential semantics: compute
`commit_ts`, lock the write set, validate the read set (stopping at the
first abort), then either unlock and return `-1` with no storage operation
issued, or issue the write-phase operations in sorted write-set order,
install `{commit_ts, 0, 0}` in the write entries' slots applying and return `0`
(`return -1 * is_abort`). -/
def transactional_splinterdb_commit (eps : Nat) (entries : List rw_entry) : CommitResult :=
  if (validateAll (commitTs eps entries) (locked_entries entries)).1 then
    { rc := -1, ops := [],
      finalCache := abort_unlock (locked_entries entries)
        (validateAll (commitTs eps entries) (locked_entries entries)).2 }
  else
    { rc := 0,
      ops := (sorted_write_set entries).filterMap
        (commit_write_op (commitTs eps entries)),
      finalCache := success_cache (commitTs eps entries) (locked_entries entries)
        (validateAll (commitTs eps entries) (locked_entries entries)).2 }

theorem lock_entry_key (e : rw_entry) : (lock_entry e).key = e.key := by
  unfold lock_entry; split <;> rfl

theorem lock_entry_is_read (e : rw_entry) :
    rw_entry_is_read (lock_entry e) = rw_entry_is_read e := by
  unfold lock_entry; split <;> rfl

theorem lock_entry_is_write (e : rw_entry) :
    rw_entry_is_write (lock_entry e) = rw_entry_is_write e := by
  unfold lock_entry rw_entry_is_write; split <;> rfl

theorem lock_entry_cache_wts (e : rw_entry) :
    (lock_entry e).cache.wts = e.cache.wts := by
  unfold lock_entry; split <;> rfl

theorem lock_entry_cache_delta (e : rw_entry) :
    (lock_entry e).cache.delta = e.cache.delta := by
  unfold lock_entry; split <;> rfl

theorem lock_entry_cache_wf {e : rw_entry} (h : e.cache.wf) :
    (lock_entry e).cache.wf := by
  unfold lock_entry
  split
  · exact ⟨Nat.le_refl 1, h.2.1, h.2.2⟩
  · exact h

/-- `validateEntry` never changes the slot's `lock_bit`. -/
theorem validateEntry_lock_bit (ct : Nat) (r : rw_entry) :
    ((validateEntry ct r).2).lock_bit = r.cache.lock_bit := by
  unfold validateEntry
  split
  · split
    · rfl
    · split <;> rfl
  · rfl

/-- Under the bitfield bounds and with `commit_ts` within 64 bits of the
slot's `wts`, `validateEntry` never changes the slot's `wts`. -/
theorem validateEntry_wts (ct : Nat) (r : rw_entry)
    (hwf : r.cache.wf) (hct : ct < W128) (hsafe : ct < r.cache.wts + W64) :
    ((validateEntry ct r).2).wts = r.cache.wts := by
  unfold validateEntry
  split
  · split
    · rfl
    · split
      · rename_i hrle
        have hwle : r.cache.wts ≤ ct := by
          have := timestamp_set_get_rts_eq r.cache hwf
          omega
        have hblt : r.cache.wts < W128 := by
          have h2 := hwf.2.2
          have : W63 < W128 := by norm_num [W63, W128]
          omega
        have hsub : sub128 ct r.cache.wts = ct - r.cache.wts := by
          unfold sub128
          rw [Nat.mod_eq_of_lt hblt]
          have : ct + (W128 - r.cache.wts) = W128 + (ct - r.cache.wts) := by omega
          rw [this, Nat.add_mod_left]
          exact Nat.mod_eq_of_lt (by omega)
        have hshift : extension_shift ct r.cache.wts = 0 := by
          have he : extension_shift ct r.cache.wts
              = sub128 ct r.cache.wts - sub128 ct r.cache.wts % W64 := rfl
          rw [he, hsub, Nat.mod_eq_of_lt (by omega : ct - r.cache.wts < W64)]
          omega
        show (r.cache.wts + extension_shift ct r.cache.wts) % W63 = r.cache.wts
        rw [hshift, Nat.add_zero]
        exact Nat.mod_eq_of_lt hwf.2.2
      · rfl
  · rfl

theorem abort_unlock_untouched :
    ∀ (l : List rw_entry),
      List.Forall₂ (fun e p => p.1 = e.key ∧ p.2.wts = e.cache.wts ∧
          (rw_entry_is_write e = true → p.2.lock_bit = 0))
        l (abort_unlock (l.map lock_entry)
            ((l.map lock_entry).map (fun e => (e.key, e.cache)))) := by
  intro l
  induction l with
  | nil => exact List.Forall₂.nil
  | cons e t ih =>
    simp only [List.map_cons, abort_unlock]
    refine List.Forall₂.cons ?_ ih
    by_cases hw : rw_entry_is_write e
    · have hw' : rw_entry_is_write (lock_entry e) = true := by
        rw [lock_entry_is_write]; exact hw
      rw [if_pos hw']
      exact ⟨lock_entry_key e, lock_entry_cache_wts e, fun _ => rfl⟩
    · have hw' : ¬ rw_entry_is_write (lock_entry e) = true := by
        rw [lock_entry_is_write]; exact hw
      rw [if_neg hw']
      exact ⟨lock_entry_key e, lock_entry_cache_wts e, fun hc => absurd hc hw⟩

theorem commit_abort_cache_spec (ct : Nat) (hct : ct < W128) :
    ∀ (l : List rw_entry), (∀ e ∈ l, e.cache.wf ∧ ct < e.cache.wts + W64) →
      List.Forall₂ (fun e p => p.1 = e.key ∧ p.2.wts = e.cache.wts ∧
          (rw_entry_is_write e = true → p.2.lock_bit = 0))
        l (abort_unlock (l.map lock_entry) (validateAll ct (l.map lock_entry)).2) := by
  intro l
  induction l with
  | nil => intro _; exact List.Forall₂.nil
  | cons e t ih =>
    intro h
    have he := h e (List.mem_cons_self e t)
    have hwfl : (lock_entry e).cache.wf := lock_entry_cache_wf he.1
    have hsafel : ct < (lock_entry e).cache.wts + W64 := by
      rw [lock_entry_cache_wts]; exact he.2
    have hvw : ((validateEntry ct (lock_entry e)).2).wts = e.cache.wts := by
      rw [validateEntry_wts ct (lock_entry e) hwfl hct hsafel, lock_entry_cache_wts]
    have ht : ∀ x ∈ t, x.cache.wf ∧ ct < x.cache.wts + W64 :=
      fun x hx => h x (List.mem_cons_of_mem e hx)
    have head_ok : ∀ (p : Nat × timestamp_set), p.1 = e.key → p.2.wts = e.cache.wts →
        (fun e p => p.1 = e.key ∧ p.2.wts = e.cache.wts ∧
            (rw_entry_is_write e = true → p.2.lock_bit = 0)) e
          (if rw_entry_is_write (lock_entry e) = true
            then (p.1, (⟨0, p.2.delta, p.2.wts⟩ : timestamp_set)) else p) := by
      intro p h1 h2
      by_cases hw : rw_entry_is_write e
      · have hw' : rw_entry_is_write (lock_entry e) = true := by
          rw [lock_entry_is_write]; exact hw
        rw [if_pos hw']
        exact ⟨h1, h2, fun _ => rfl⟩
      · have hw' : ¬ rw_entry_is_write (lock_entry e) = true := by
          rw [lock_entry_is_write]; exact hw
        rw [if_neg hw']
        exact ⟨h1, h2, fun hc => absurd hc hw⟩
    simp only [List.map_cons, validateAll]
    by_cases hr : rw_entry_is_read (lock_entry e)
    · simp only [hr, if_true]
      by_cases hab : (validateEntry ct (lock_entry e)).1
      · simp only [hab, if_true, abort_unlock]
        exact List.Forall₂.cons
          (head_ok ((lock_entry e).key, (validateEntry ct (lock_entry e)).2)
            (lock_entry_key e) hvw)
          (abort_unlock_untouched t)
      · simp only [hab, Bool.false_eq_true, if_false, abort_unlock]
        exact List.Forall₂.cons
          (head_ok ((lock_entry e).key, (validateEntry ct (lock_entry e)).2)
            (lock_entry_key e) hvw)
          (ih ht)
    · simp only [hr, Bool.false_eq_true, if_false, abort_unlock]
      exact List.Forall₂.cons
        (head_ok ((lock_entry e).key, (lock_entry e).cache)
          (lock_entry_key e) (lock_entry_cache_wts e))
        (ih ht)

theorem success_cache_untouched (ct : Nat) :
    ∀ (l : List rw_entry),
      List.Forall₂ (fun e p => p.1 = e.key ∧
          (rw_entry_is_write e = true → p.2 = ⟨0, 0, ct % W63⟩))
        l (success_cache ct (l.map lock_entry)
            ((l.map lock_entry).map (fun e => (e.key, e.cache)))) := by
  intro l
  induction l with
  | nil => exact List.Forall₂.nil
  | cons e t ih =>
    simp only [List.map_cons, success_cache]
    refine List.Forall₂.cons ?_ ih
    by_cases hw : rw_entry_is_write e
    · have hw' : rw_entry_is_write (lock_entry e) = true := by
        rw [lock_entry_is_write]; exact hw
      rw [if_pos hw']
      exact ⟨lock_entry_key e, fun _ => rfl⟩
    · have hw' : ¬ rw_entry_is_write (lock_entry e) = true := by
        rw [lock_entry_is_write]; exact hw
      rw [if_neg hw']
      exact ⟨lock_entry_key e, fun hc => absurd hc hw⟩

theorem commit_success_cache_spec (ct : Nat) :
    ∀ (l : List rw_entry),
      List.Forall₂ (fun e p => p.1 = e.key ∧
          (rw_entry_is_write e = true → p.2 = ⟨0, 0, ct % W63⟩))
        l (success_cache ct (l.map lock_entry) (validateAll ct (l.map lock_entry)).2) := by
  intro l
  induction l with
  | nil => exact List.Forall₂.nil
  | cons e t ih =>
    have head_ok : ∀ (p : Nat × timestamp_set), p.1 = e.key →
        (fun e p => p.1 = e.key ∧
            (rw_entry_is_write e = true → p.2 = ⟨0, 0, ct % W63⟩)) e
          (if rw_entry_is_write (lock_entry e) = true
            then (p.1, (⟨0, 0, ct % W63⟩ : timestamp_set)) else p) := by
      intro p h1
      by_cases hw : rw_entry_is_write e
      · have hw' : rw_entry_is_write (lock_entry e) = true := by
          rw [lock_entry_is_write]; exact hw
        rw [if_pos hw']
        exact ⟨h1, fun _ => rfl⟩
      · have hw' : ¬ rw_entry_is_write (lock_entry e) = true := by
          rw [lock_entry_is_write]; exact hw
        rw [if_neg hw']
        exact ⟨h1, fun hc => absurd hc hw⟩
    simp only [List.map_cons, validateAll]
    by_cases hr : rw_entry_is_read (lock_entry e)
    · simp only [hr, if_true]
      by_cases hab : (validateEntry ct (lock_entry e)).1
      · simp only [hab, if_true, success_cache]
        exact List.Forall₂.cons
          (head_ok ((lock_entry e).key, (validateEntry ct (lock_entry e)).2)
            (lock_entry_key e))
          (success_cache_untouched ct t)
      · simp only [hab, Bool.false_eq_true, if_false, success_cache]
        exact List.Forall₂.cons
          (head_ok ((lock_entry e).key, (validateEntry ct (lock_entry e)).2)
            (lock_entry_key e))
          ih
    · simp only [hr, Bool.false_eq_true, if_false, success_cache]
      exact List.Forall₂.cons
        (head_ok ((lock_entry e).key, (lock_entry e).cache)
          (lock_entry_key e))
        ih

/-- C3: `transactional_splinterdb_commit` returns `0` or `-1`, the negative
return happening exactly when read validation aborts; and on the abort path
no storage operation is issued for any write-set entry, every write entry's
`lock_bit` taken by this commit is cleared again, and no entry's cached
`wts` is changed (in particular none is set to `commit_ts`). -/
theorem C3_commit_abort_isolation (eps : Nat) (entries : List rw_entry)
    (hwf : ∀ e ∈ entries, e.cache.wf ∧ commitTs eps entries < e.cache.wts + W64)
    (hct : commitTs eps entries < W128) :
    ((transactional_splinterdb_commit eps entries).rc = 0 ∨
      (transactional_splinterdb_commit eps entries).rc = -1) ∧
    ((transactional_splinterdb_commit eps entries).rc < 0 ↔
      (validateAll (commitTs eps entries) (locked_entries entries)).1 = true) ∧
    ((validateAll (commitTs eps entries) (locked_entries entries)).1 = true →
      (transactional_splinterdb_commit eps entries).ops = [] ∧
      List.Forall₂ (fun e p => p.1 = e.key ∧ p.2.wts = e.cache.wts ∧
          (rw_entry_is_write e = true → p.2.lock_bit = 0))
        entries (transactional_splinterdb_commit eps entries).finalCache) := by
  by_cases hab : (validateAll (commitTs eps entries) (locked_entries entries)).1
  · have hres : transactional_splinterdb_commit eps entries
        = { rc := -1, ops := [],
            finalCache := abort_unlock (locked_entries entries)
              (validateAll (commitTs eps entries) (locked_entries entries)).2 } := by
      unfold transactional_splinterdb_commit
      rw [if_pos hab]
    rw [hres]
    refine ⟨Or.inr rfl, ⟨fun _ => hab, fun _ => by norm_num⟩, fun _ => ⟨rfl, ?_⟩⟩
    exact commit_abort_cache_spec (commitTs eps entries) hct entries hwf
  · have hres : transactional_splinterdb_commit eps entries
        = { rc := 0,
            ops := (sorted_write_set entries).filterMap
              (commit_write_op (commitTs eps entries)),
            finalCache := success_cache (commitTs eps entries) (locked_entries entries)
              (validateAll (commitTs eps entries) (locked_entries entries)).2 } := by
      unfold transactional_splinterdb_commit
      rw [if_neg hab]
    rw [hres]
    refine ⟨Or.inl rfl, ⟨fun hc => by norm_num at hc, fun hc => absurd hc hab⟩,
      fun hc => absurd hc hab⟩

/-- A transaction whose read entry fails validation: the `wts` observed at
read time (1) differs from the cache slot's current `wts` (2). -/
def c3Read : rw_entry :=
  { key := 0, is_read := true, msg := none, wts := 1, rts := 0,
    cache := ⟨0, 0, 2⟩ }

def c3Write : rw_entry :=
  { key := 1, is_read := false,
    msg := some (rw_entry_set_msg message_type.insert [5]),
    wts := 0, rts := 0, cache := ⟨0, 0, 0⟩ }

def c3Entries : List rw_entry := [c3Read, c3Write]

theorem C3_witness :
    (transactional_splinterdb_commit 0 c3Entries).rc < 0 ∧
    (transactional_splinterdb_commit 0 c3Entries).ops = [] := by
  have h := C3_commit_abort_isolation 0 c3Entries (by decide) (by decide)
  exact ⟨h.2.1.mpr (by decide), (h.2.2 (by decide)).1⟩

/-- The requirement C4 states of every issued operation: it carries the
buffered payload behind a `tuple_header` of
`{is_ts_update = 0, delta = 0, wts = commit_ts}`.  A delete carries no
bytes at all, so it can never satisfy this. -/
def op_carries_commit_header (ct : Nat) (op : KVOp) : Prop :=
  match op with
  | KVOp.insert _ b => b.take 16 = tuple_header.toBytes ⟨0, 0, ct % W63⟩
  | KVOp.update _ b => b.take 16 = tuple_header.toBytes ⟨0, 0, ct % W63⟩
  | KVOp.delete _ => False

instance (ct : Nat) (op : KVOp) : Decidable (op_carries_commit_header ct op) := by
  unfold op_carries_commit_header
  cases op <;> infer_instance

/-- C4 (amended): on a non-aborting commit the storage operations are
issued in sorted write-set order; an `insert` or `update` entry's operation
carries the buffered payload behind the header
`{is_ts_update = 0, delta = 0, wts = commit_ts}`, while a `delete` entry
issues `splinterdb_delete` with the key only (the header is written into
the buffered message but not transmitted); afterwards every write entry's
cache slot holds `{wts = commit_ts, delta = 0, lock_bit = 0}`. -/
theorem C4_commit_success_writes (eps : Nat) (entries : List rw_entry)
    (hab : (validateAll (commitTs eps entries) (locked_entries entries)).1 = false) :
    (transactional_splinterdb_commit eps entries).rc = 0 ∧
    (transactional_splinterdb_commit eps entries).ops
      = (sorted_write_set entries).filterMap
          (commit_write_op (commitTs eps entries)) ∧
    (∀ w ∈ sorted_write_set entries, ∀ m, w.msg = some m →
      (m.cls = message_type.insert →
        commit_write_op (commitTs eps entries) w
          = some (KVOp.insert w.key
              (tuple_header.toBytes ⟨0, 0, commitTs eps entries % W63⟩
                ++ m.payload))) ∧
      (m.cls = message_type.update →
        commit_write_op (commitTs eps entries) w
          = some (KVOp.update w.key
              (tuple_header.toBytes ⟨0, 0, commitTs eps entries % W63⟩
                ++ m.payload))) ∧
      (m.cls = message_type.delete →
        commit_write_op (commitTs eps entries) w
          = some (KVOp.delete w.key))) ∧
    List.Forall₂ (fun e p => p.1 = e.key ∧
        (rw_entry_is_write e = true → p.2 = ⟨0, 0, commitTs eps entries % W63⟩))
      entries (transactional_splinterdb_commit eps entries).finalCache := by
  have hab' : ¬ (validateAll (commitTs eps entries) (locked_entries entries)).1 = true := by
    rw [hab]; exact Bool.false_ne_true
  have hres : transactional_splinterdb_commit eps entries
      = { rc := 0,
          ops := (sorted_write_set entries).filterMap
            (commit_write_op (commitTs eps entries)),
          finalCache := success_cache (commitTs eps entries) (locked_entries entries)
            (validateAll (commitTs eps entries) (locked_entries entries)).2 } := by
    unfold transactional_splinterdb_commit
    rw [if_neg hab']
  rw [hres]
  refine ⟨rfl, rfl, ?_, commit_success_cache_spec (commitTs eps entries) entries⟩
  intro w _ m hm
  refine ⟨?_, ?_, ?_⟩ <;> intro hcls <;>
    simp only [commit_write_op, hm, hcls, MessageBuf.fullBytes]

/-- A committing transaction whose single write entry buffers a DELETE
message: the issued operation is `splinterdb_delete(key)` with no payload,
so it carries no tuple header. -/
def c4Del : rw_entry :=
  { key := 9, is_read := false,
    msg := some (rw_entry_set_msg message_type.delete []),
    wts := 0, rts := 0, cache := ⟨0, 0, 0⟩ }

/-- C4, claim as stated, refuted: this commit does not abort and issues
exactly `splinterdb_delete(9)`, an operation that carries no
header-prefixed payload. -/
theorem C4_counterexample :
    (transactional_splinterdb_commit 0 [c4Del]).rc = 0 ∧
    (transactional_splinterdb_commit 0 [c4Del]).ops = [KVOp.delete 9] ∧
    ¬ op_carries_commit_header (commitTs 0 [c4Del]) (KVOp.delete 9) := by
  refine ⟨?_, ?_, by decide⟩ <;> decide

/-- A committing transaction with one buffered INSERT. -/
def c4Ins : rw_entry :=
  { key := 3, is_read := false,
    msg := some (rw_entry_set_msg message_type.insert [1, 2]),
    wts := 0, rts := 0, cache := ⟨0, 0, 0⟩ }

theorem C4_witness :
    (transactional_splinterdb_commit 0 [c4Ins]).rc = 0 ∧
    (transactional_splinterdb_commit 0 [c4Ins]).ops
      = (sorted_write_set [c4Ins]).filterMap (commit_write_op (commitTs 0 [c4Ins])) := by
  have h := C4_commit_success_writes 0 [c4Ins] (by decide)
  exact ⟨h.1, h.2.1⟩

instance : IsTotal rw_entry (fun a b => a.key ≤ b.key) :=
  ⟨fun a b => Nat.le_total a.key b.key⟩

instance : IsTrans rw_entry (fun a b => a.key ≤ b.key) :=
  ⟨fun _ _ _ => Nat.le_trans⟩

/-- One pass of the `RETRY_LOCK_WRITE_SET` loop: walk the sorted write set
by index, attempting `rw_entry_try_lock` on each entry; the `oracle`
decides the outcome of each successive CAS attempt (attempt counter
`att`).  Returns the locks acquired during the pass appended to `held`,
the index of the failing attempt (or `none`), and the attempt counter
afterwards. -/
def acquirePhase (oracle : Nat → Bool) : Nat → List Nat → List Nat → List Nat × Option Nat × Nat
  | att, held, [] => (held, none, att)
  | att, held, i :: rest =>
    if oracle att then acquirePhase oracle (att + 1) (held ++ [i]) rest
    else (held, some i, att + 1)

/-- The failure path of a pass: `for (i = 0; i < lock_num; ++i)
rw_entry_unlock(write_set[i])` — release indices `0 .. j-1` in ascending
order. -/
def releasePhase (held : List Nat) : Nat → List Nat
  | 0 => held
  | j + 1 => (releasePhase held j).erase j

/-- The whole locking loop: each pass tries to lock write entries
`0 .. n-1`; on a failure at index `j` it releases the locks acquired
earlier in that pass, sleeps `platform_sleep_ns(1000)`, and retries from
the first entry.  `fuel` bounds the number of passes (the C loops
unboundedly); the result is (all-locked flag, locks held, and for every
sleep its duration paired with the locks held while sleeping). -/
def lockWriteSetLoop (oracle : Nat → Bool) (n : Nat) :
    Nat → Nat → List Nat → List (Nat × List Nat) → Bool × List Nat × List (Nat × List Nat)
  | 0, _, held, sleeps => (false, held, sleeps)
  | fuel + 1, att, held, sleeps =>
    match acquirePhase oracle att held (List.range n) with
    | (held2, none, _) => (true, held2, sleeps)
    | (held2, some j, att2) =>
      lockWriteSetLoop oracle n fuel att2 (releasePhase held2 j)
        (sleeps ++ [(1000, releasePhase held2 j)])

theorem acquirePhase_spec (oracle : Nat → Bool) :
    ∀ (m s att : Nat) (held : List Nat),
      acquirePhase oracle att held (List.range' s m)
          = (held ++ List.range' s m, none, att + m) ∨
      ∃ k, k < m ∧ acquirePhase oracle att held (List.range' s m)
          = (held ++ List.range' s k, some (s + k), att + k + 1) := by
  intro m
  induction m with
  | zero =>
    intro s att held
    left
    simp [acquirePhase]
  | succ m ih =>
    intro s att held
    rw [List.range'_succ]
    by_cases ho : oracle att
    · have hstep : acquirePhase oracle att held (s :: List.range' (s + 1) m)
          = acquirePhase oracle (att + 1) (held ++ [s]) (List.range' (s + 1) m) := by
        simp [acquirePhase, ho]
      rw [hstep]
      rcases ih (s + 1) (att + 1) (held ++ [s]) with hL | ⟨k, hk, hR⟩
      · left
        rw [hL]
        have h1 : held ++ [s] ++ List.range' (s + 1) m = held ++ s :: List.range' (s + 1) m := by
          rw [List.append_assoc]; rfl
        have h2 : att + 1 + m = att + (m + 1) := by omega
        rw [h1, h2]
      · right
        refine ⟨k + 1, by omega, ?_⟩
        rw [hR, List.range'_succ]
        have h1 : held ++ [s] ++ List.range' (s + 1) k = held ++ s :: List.range' (s + 1) k := by
          rw [List.append_assoc]; rfl
        have h2 : s + 1 + k = s + (k + 1) := by omega
        have h3 : att + 1 + k + 1 = att + (k + 1) + 1 := by omega
        rw [h1, h2, h3]
    · right
      refine ⟨0, by omega, ?_⟩
      simp [acquirePhase, ho]

theorem releasePhase_range : ∀ (j : Nat) (t : List Nat),
    releasePhase (List.range j ++ t) j = t := by
  intro j
  induction j with
  | zero => intro t; simp [releasePhase]
  | succ j ih =>
    intro t
    show (releasePhase (List.range (j + 1) ++ t) j).erase j = t
    rw [List.range_succ, List.append_assoc]
    rw [show List.range j ++ ([j] ++ t) = List.range j ++ (j :: t) from rfl]
    rw [ih (j :: t)]
    exact List.erase_cons_head j t

theorem releasePhase_range_nil (j : Nat) : releasePhase (List.range j) j = [] := by
  have := releasePhase_range j []
  simpa using this

theorem lockWriteSetLoop_sleeps (oracle : Nat → Bool) (n : Nat) :
    ∀ (fuel att : Nat) (sleeps : List (Nat × List Nat)),
      (∀ p ∈ sleeps, p.1 = 1000 ∧ p.2 = []) →
      ∀ p ∈ (lockWriteSetLoop oracle n fuel att [] sleeps).2.2,
        p.1 = 1000 ∧ p.2 = [] := by
  intro fuel
  induction fuel with
  | zero => intro att sleeps hs; exact hs
  | succ fuel ih =>
    intro att sleeps hs p hp
    rcases acquirePhase_spec oracle n 0 att [] with hL | ⟨k, hk, hR⟩
    · have hscr : acquirePhase oracle att [] (List.range n)
          = ([] ++ List.range' 0 n, none, att + n) := by
        rw [List.range_eq_range']; exact hL
      simp only [lockWriteSetLoop, hscr] at hp
      exact hs p hp
    · have hscr : acquirePhase oracle att [] (List.range n)
          = ([] ++ List.range' 0 k, some (0 + k), att + k + 1) := by
        rw [List.range_eq_range']; exact hR
      have hrel : releasePhase ([] ++ List.range' 0 k) (0 + k) = [] := by
        rw [List.nil_append, Nat.zero_add, ← List.range_eq_range']
        exact releasePhase_range_nil k
      simp only [lockWriteSetLoop, hscr, hrel] at hp
      refine ih _ _ ?_ p hp
      intro q hq
      rcases List.mem_append.mp hq with h | h
      · exact hs q h
      · rcases List.mem_singleton.mp h with rfl
        exact ⟨rfl, rfl⟩

theorem lockWriteSetLoop_locked (oracle : Nat → Bool) (n : Nat) :
    ∀ (fuel att : Nat) (sleeps : List (Nat × List Nat)),
      (lockWriteSetLoop oracle n fuel att [] sleeps).1 = true →
      (lockWriteSetLoop oracle n fuel att [] sleeps).2.1 = List.range n := by
  intro fuel
  induction fuel with
  | zero => intro att sleeps h; exact absurd h (by simp [lockWriteSetLoop])
  | succ fuel ih =>
    intro att sleeps h
    rcases acquirePhase_spec oracle n 0 att [] with hL | ⟨k, hk, hR⟩
    · have hscr : acquirePhase oracle att [] (List.range n)
          = ([] ++ List.range' 0 n, none, att + n) := by
        rw [List.range_eq_range']; exact hL
      simp only [lockWriteSetLoop, hscr] at h ⊢
      rw [List.nil_append, List.range_eq_range']
    · have hscr : acquirePhase oracle att [] (List.range n)
          = ([] ++ List.range' 0 k, some (0 + k), att + k + 1) := by
        rw [List.range_eq_range']; exact hR
      have hrel : releasePhase ([] ++ List.range' 0 k) (0 + k) = [] := by
        rw [List.nil_append, Nat.zero_add, ← List.range_eq_range']
        exact releasePhase_range_nil k
      simp only [lockWriteSetLoop, hscr, hrel] at h ⊢
      exact ih _ _ h

/-- C5: before locking, the write set is sorted by key under the
comparator; the lock phase walks the sorted array in index order; whenever
a `rw_entry_try_lock` CAS fails, all locks taken earlier in that pass are
released before the thread sleeps 1000 ns, so every sleep happens with no
write lock held; and when the loop exits successfully, the locks taken are
exactly indices `0 .. n-1` of the sorted array, acquired in ascending
order. -/
theorem C5_lock_sorted_no_wait (entries : List rw_entry) (oracle : Nat → Bool)
    (fuel att : Nat) :
    List.Sorted (fun a b => a.key ≤ b.key) (sorted_write_set entries) ∧
    (∀ p ∈ (lockWriteSetLoop oracle (sorted_write_set entries).length
        fuel att [] []).2.2, p.1 = 1000 ∧ p.2 = []) ∧
    ((lockWriteSetLoop oracle (sorted_write_set entries).length
        fuel att [] []).1 = true →
      (lockWriteSetLoop oracle (sorted_write_set entries).length
        fuel att [] []).2.1 = List.range (sorted_write_set entries).length) := by
  refine ⟨?_, ?_, ?_⟩
  · have h := List.sorted_insertionSort (fun (a b : rw_entry) => a.key ≤ b.key)
      (write_set entries)
    exact h
  · exact lockWriteSetLoop_sleeps oracle _ fuel att [] (by intro p hp; cases hp)
  · exact lockWriteSetLoop_locked oracle _ fuel att []

/-- Two write entries with unsorted keys, and an attempt oracle whose first
CAS fails (forcing one release-sleep-retry round). -/
def c5Entries : List rw_entry :=
  [ { key := 4, is_read := false,
      msg := some (rw_entry_set_msg message_type.insert [1]),
      wts := 0, rts := 0, cache := ⟨0, 0, 0⟩ },
    { key := 2, is_read := false,
      msg := some (rw_entry_set_msg message_type.update [2]),
      wts := 0, rts := 0, cache := ⟨0, 0, 0⟩ } ]

def c5Oracle : Nat → Bool := fun att => decide (0 < att)

theorem C5_witness :
    List.Sorted (fun a b => a.key ≤ b.key) (sorted_write_set c5Entries) ∧
    ((1000, ([] : List Nat)).1 = 1000 ∧ (1000, ([] : List Nat)).2 = []) ∧
    (lockWriteSetLoop c5Oracle (sorted_write_set c5Entries).length 2 0 [] []).2.1
      = List.range (sorted_write_set c5Entries).length := by
  have h := C5_lock_sorted_no_wait c5Entries c5Oracle 2 0
  exact ⟨h.1, h.2.1 (1000, []) (by decide), h.2.2 (by decide)⟩

/-- The caller-facing `splinterdb_config` (declared in
`include/splinterdb/splinterdb.h`, outside these sources).  Modelled from
the spec: its options are cache/disk/page/extent sizes, logging knobs and
the data config; it has no timestamp-cache field, so only representative
numeric fields are carried here. -/
structure splinterdb_config where
  cache_size : Nat
  disk_size : Nat
  page_size : Nat
  extent_size : Nat
  use_log : Bool
  deriving Repr, DecidableEq

/-- `transactional_splinterdb_config`: the internal wrapper allocated by
`transactional_splinterdb_create_or_open` (the `txn_data_cfg` merge-hook
wrapper is omitted; it does not affect sizing). -/
structure transactional_splinterdb_config where
  kvsb_cfg : splinterdb_config
  tscache_log_slots : Nat
  deriving Repr, DecidableEq

/-- `transactional_splinterdb_config_init`: copies the caller's
`splinterdb_config` and then sets `tscache_log_slots = 20`
unconditionally — the literal `20` in the source, with no input that could
override it. -/
def transactional_splinterdb_config_init (kvsb_cfg : splinterdb_config) :
    transactional_splinterdb_config :=
  { kvsb_cfg := kvsb_cfg, tscache_log_slots := 20 }

/-- The argument `transactional_splinterdb_create_or_open` passes to
`iceberg_init` for the timestamp cache: the `tscache_log_slots` of the
config it just initialised. -/
def iceberg_init_log_slots (kvsb_cfg : splinterdb_config) : Nat :=
  (transactional_splinterdb_config_init kvsb_cfg).tscache_log_slots

/-- The sizing behaviour the claim (and the spec's option list) describes.
Modelled from the spec: `tscache_log_slots` is a caller-chosen power-of-2
size, so the cache would be initialised with whatever the caller asked
for. -/
def spec_tscache_log_slots (requested : Nat) : Nat := requested

/-- C7, claim as stated, refuted: whatever configuration the caller
passes, `iceberg_init` receives log-slots `20`; in particular a requested
small size of `8` (the spec's end-to-end eviction scenario) never reaches
the cache: `20 ≠ spec_tscache_log_slots 8`. -/
theorem C7_counterexample :
    iceberg_init_log_slots ⟨1024, 8192, 4096, 131072, false⟩ = 20 ∧
    iceberg_init_log_slots ⟨1024, 8192, 4096, 131072, false⟩
      ≠ spec_tscache_log_slots 8 := by
  exact ⟨rfl, by decide⟩

/-- C7 (amended): `transactional_splinterdb_create_or_open` always calls
`iceberg_init` with log-slots `20`: `transactional_splinterdb_config_init`
hard-codes `tscache_log_slots = 20` and the caller's `splinterdb_config`
carries no field that could influence it. -/
theorem C7_tscache_slots_hardcoded (kvsb_cfg : splinterdb_config) :
    iceberg_init_log_slots kvsb_cfg = 20 ∧
    (transactional_splinterdb_config_init kvsb_cfg).kvsb_cfg = kvsb_cfg :=
  ⟨rfl, rfl⟩

/-- `wait = wait > 2048 ? wait : 2 * wait`, the backoff update shared by
`platform_batch_rwlock_writelock`, `platform_batch_rwlock_readlock` and
`platform_batch_rwlock_try_writelock`. -/
def backoff_next (w : Nat) : Nat := if w > 2048 then w else 2 * w

/-- The sleep durations of one contended spin loop
(`while (contended) { platform_sleep(wait); wait = wait > 2048 ? wait : 2 * wait; }`)
that spins `m` times starting from `wait = w`. -/
def spinLoopSleeps : Nat → Nat → List Nat
  | 0, _ => []
  | m + 1, w => w :: spinLoopSleeps m (backoff_next w)

/-- A spin loop of the batched rwlock as entered with `wait = 1`. -/
def writelockSleeps (m : Nat) : List Nat := spinLoopSleeps m 1

theorem spinLoopSleeps_le (m : Nat) :
    ∀ w, w ≤ 4096 → ∀ x ∈ spinLoopSleeps m w, x ≤ 4096 := by
  induction m with
  | zero => intro w _ x hx; cases hx
  | succ m ih =>
    intro w hw x hx
    rcases List.mem_cons.mp hx with rfl | hx
    · exact hw
    · refine ih (backoff_next w) ?_ x hx
      unfold backoff_next
      split <;> omega

theorem spinLoopSleeps_get (k : Nat) :
    ∀ (m w : Nat), k < m → (spinLoopSleeps m w).get? k = some (backoff_next^[k] w) := by
  induction k with
  | zero =>
    intro m w hm
    cases m with
    | zero => omega
    | succ m => rfl
  | succ k ih =>
    intro m w hm
    cases m with
    | zero => omega
    | succ m =>
      show (spinLoopSleeps m (backoff_next w)).get? k = _
      rw [ih m (backoff_next w) (by omega), Function.iterate_succ_apply]

/-- C8 (amended): in the batched rwlock's contended spin loops the `k`-th
sleep lasts `backoff_next^[k] 1` units — it starts at 1 and doubles after
each sleep while still at most 2048 — and no sleep exceeds 4096 units.
(The cap is 4096, not 2048: the duration stops doubling only once it
exceeds 2048, so the schedule is 1, 2, …, 2048, 4096, 4096, ….) -/
theorem C8_backoff_schedule (m k : Nat) (hk : k < m) :
    (writelockSleeps m).get? k = some (backoff_next^[k] 1) ∧
    ∀ x ∈ writelockSleeps m, x ≤ 4096 := by
  exact ⟨spinLoopSleeps_get k m 1 hk,
    spinLoopSleeps_le m 1 (by omega)⟩

theorem C8_witness :
    (writelockSleeps 13).get? 12 = some (backoff_next^[12] 1) ∧
    (4096 : Nat) ≤ 4096 :=
  ⟨(C8_backoff_schedule 13 12 (by omega)).1,
   (C8_backoff_schedule 13 12 (by omega)).2 4096 (by decide)⟩

/-- C8, claim as stated, refuted: the 13th sleep of a long contended spin
lasts 4096 units, exceeding the claimed 2048-unit cap (after sleeping
2048, `wait` is doubled to 4096 because `2048 > 2048` is false). -/
theorem C8_counterexample :
    (4096 : Nat) ∈ writelockSleeps 13 ∧ ¬ ((4096 : Nat) ≤ 2048) := by
  exact ⟨by decide, by decide⟩

/-- The observable outcome of `transactional_splinterdb_lookup`: the bytes
placed in `_result->value` (`none` if never written), how many
`splinterdb_lookup` calls were made, the recorded `entry->wts`/`entry->rts`
(`none` on the read-my-write path, which does not touch them), and the
entry's timestamp-cache slot afterwards. -/
structure LookupOut where
  resultBytes : Option (List Nat)
  storageLookups : Nat
  entry_wts : Option Nat
  entry_rts : Option Nat
  cache : timestamp_set
  deriving Repr, DecidableEq

/-- The storage do/while of `transactional_splinterdb_lookup` for a key not
in the write set.  Faithful to C semantics: `continue` inside a `do { }
while (cond)` jumps to `cond`, so when the loaded snapshot has `lock_bit`
set the loop proceeds straight to
`timestamp_set_compare_and_swap(entry->tuple_ts, &v1, &v2)` with the stale
`v2` — uninitialised on the first iteration, modelled by the caller-supplied
`v2` start value.  Otherwise the body performs the storage lookup, forms
`v2` as the componentwise max of the snapshot and the stored tuple's
`{wts, delta}`, and strips the `tuple_header` from the result.  `loads k`
is the snapshot returned by the `k`-th `timestamp_set_load`, `casOk k` the
outcome of the `k`-th CAS; on CAS success the slot holds `v2` and
`entry->wts/rts` are recorded from it.  `none` on fuel exhaustion. -/
def lookup_storage_loop (tup : tuple_header) (tupPayload : List Nat)
    (loads : Nat → timestamp_set) (casOk : Nat → Bool) :
    Nat → Nat → Nat → timestamp_set → Option (List Nat) → Option LookupOut
  | 0, _, _, _, _ => none
  | fuel + 1, k, lookups, v2, res =>
    if (loads k).lock_bit = 1 then
      if casOk k then
        some ⟨res, lookups, some v2.wts, some (timestamp_set_get_rts v2), v2⟩
      else lookup_storage_loop tup tupPayload loads casOk fuel (k + 1) lookups v2 res
    else
      if casOk k then
        some ⟨some tupPayload, lookups + 1,
          some (max (loads k).wts tup.wts),
          some (timestamp_set_get_rts
            ⟨(loads k).lock_bit, max (loads k).delta tup.delta,
              max (loads k).wts tup.wts⟩),
          ⟨(loads k).lock_bit, max (loads k).delta tup.delta,
            max (loads k).wts tup.wts⟩⟩
      else lookup_storage_loop tup tupPayload loads casOk fuel (k + 1) (lookups + 1)
        ⟨(loads k).lock_bit, max (loads k).delta tup.delta,
          max (loads k).wts tup.wts⟩
        (some tupPayload)

/-- `transactional_splinterdb_lookup`.  If the entry has a buffered write,
the result is filled by copying the whole buffered message
(`message_length(entry->msg)` bytes starting at `message_data(entry->msg)`)
— the read-my-write path, which issues no storage lookup and leaves the
entry's recorded timestamps and cache slot alone.  Otherwise the storage
loop runs (the `EXPERIMENTAL_MODE_BYPASS_SPLINTERDB` block is modelled
disabled, its only brace-balanced configuration: buffered writes take the
early return, other keys fall through to the storage do/while; the
bypass-only branch that would answer from cached timestamps alone is not
modelled).  `g` stands for the indeterminate initial value of the stack
variable `v2`. -/
def transactional_splinterdb_lookup (e : rw_entry) (g : timestamp_set)
    (tup : tuple_header) (tupPayload : List Nat)
    (loads : Nat → timestamp_set) (casOk : Nat → Bool) (fuel : Nat) :
    Option LookupOut :=
  match e.msg with
  | some m => some ⟨some m.fullBytes, 0, none, none, e.cache⟩
  | none => lookup_storage_loop tup tupPayload loads casOk fuel 0 0 g none

/-- C10: looking up a key already in the transaction's write set answers
from the buffered message alone: no storage lookup, no update of the
recorded `wts`/`rts` or of the cache slot, and the bytes placed in the
result are the full buffered message — the `sizeof(tuple_header) = 16`
header bytes are kept, so the result is 16 bytes longer than the
application payload, unlike the storage path, which strips the header and
returns the payload only. -/
theorem C10_read_my_write (e : rw_entry) (m : MessageBuf) (hm : e.msg = some m)
    (g : timestamp_set) (tup : tuple_header) (tupPayload : List Nat)
    (loads : Nat → timestamp_set) (casOk : Nat → Bool) (fuel : Nat) :
    transactional_splinterdb_lookup e g tup tupPayload loads casOk fuel
      = some ⟨some (tuple_header.toBytes m.header ++ m.payload), 0, none, none, e.cache⟩ ∧
    (tuple_header.toBytes m.header ++ m.payload).length = 16 + m.payload.length ∧
    (∀ e2 : rw_entry, e2.msg = none → (loads 0).lock_bit = 0 → casOk 0 = true →
      0 < fuel →
      transactional_splinterdb_lookup e2 g tup tupPayload loads casOk fuel
        = some ⟨some tupPayload, 1,
            some (max (loads 0).wts tup.wts),
            some (timestamp_set_get_rts
              ⟨(loads 0).lock_bit, max (loads 0).delta tup.delta,
                max (loads 0).wts tup.wts⟩),
            ⟨(loads 0).lock_bit, max (loads 0).delta tup.delta,
              max (loads 0).wts tup.wts⟩⟩) := by
  refine ⟨?_, ?_, ?_⟩
  · unfold transactional_splinterdb_lookup
    rw [hm]
    rfl
  · have hlen : (tuple_header.toBytes m.header).length = 16 := by
      have : ∀ (k n : Nat), (natToLEBytes k n).length = k := by
        intro k
        induction k with
        | zero => intro n; rfl
        | succ k ih => intro n; simp [natToLEBytes, ih]
      exact this 16 _
    rw [List.length_append, hlen]
  · intro e2 hm2 hlock hcas hfuel
    unfold transactional_splinterdb_lookup
    rw [hm2]
    cases fuel with
    | zero => omega
    | succ f =>
      show lookup_storage_loop tup tupPayload loads casOk (f + 1) 0 0 g none = _
      unfold lookup_storage_loop
      rw [if_neg (by rw [hlock]; omega), if_pos hcas]

/-- A write entry holding a buffered insert, and a read entry, used to
instantiate the read-my-write theorem. -/
def c10Write : rw_entry :=
  { key := 5, is_read := false,
    msg := some (rw_entry_set_msg message_type.insert [7, 7]),
    wts := 0, rts := 0, cache := ⟨0, 0, 0⟩ }

def c10Read : rw_entry :=
  { key := 6, is_read := true, msg := none, wts := 0, rts := 0,
    cache := ⟨0, 1, 4⟩ }

theorem C10_witness :
    transactional_splinterdb_lookup c10Write ⟨0, 0, 0⟩ ⟨0, 2, 5⟩ [9]
        (fun _ => ⟨0, 1, 4⟩) (fun _ => true) 1
      = some ⟨some (tuple_header.toBytes
            (rw_entry_set_msg message_type.insert [7, 7]).header ++ [7, 7]),
          0, none, none, c10Write.cache⟩ ∧
    (tuple_header.toBytes (rw_entry_set_msg message_type.insert [7, 7]).header
        ++ [7, 7]).length = 16 + 2 ∧
    transactional_splinterdb_lookup c10Read ⟨0, 0, 0⟩ ⟨0, 2, 5⟩ [9]
        (fun _ => ⟨0, 1, 4⟩) (fun _ => true) 1
      = some ⟨some [9], 1, some 5, some 7, ⟨0, 2, 5⟩⟩ := by
  have h := C10_read_my_write c10Write (rw_entry_set_msg message_type.insert [7, 7])
    rfl ⟨0, 0, 0⟩ ⟨0, 2, 5⟩ [9] (fun _ => ⟨0, 1, 4⟩) (fun _ => true) 1
  refine ⟨h.1, h.2.1, ?_⟩
  exact (h.2.2 c10Read rfl rfl rfl (by omega)).trans (by decide)

/-- A read entry whose cache slot is locked by another transaction's commit
at the moment `transactional_splinterdb_lookup` loads it. -/
def c6Read : rw_entry :=
  { key := 0, is_read := true, msg := none, wts := 0, rts := 0,
    cache := ⟨1, 0, 5⟩ }

/-- C6, evaluated at the failing input: the first load returns a snapshot
with `lock_bit = 1` and the CAS finds the slot unchanged.  Because the C
`continue` jumps to the `while` condition, the loop CASes the stale,
uninitialised `v2` (here `⟨0, 3, 7⟩`) into the cache slot and exits: no
storage lookup is performed, the result is never filled, the slot is
clobbered with the indeterminate value, and `entry->wts/rts` are recorded
from it — instead of retrying the load until `lock_bit = 0` as the claim
(and the spec's "retry if set") describes. -/
theorem C6_locked_continue_clobbers :
    ((⟨1, 0, 5⟩ : timestamp_set).lock_bit = 1) ∧
    transactional_splinterdb_lookup c6Read ⟨0, 3, 7⟩ ⟨0, 2, 9⟩ [42]
        (fun _ => ⟨1, 0, 5⟩) (fun _ => true) 1
      = some ⟨none, 0, some 7, some 10, ⟨0, 3, 7⟩⟩ := by
  exact ⟨rfl, by decide⟩
